import Mathlib

/-!
Verification of the collection pipeline of moltbook-observatory
(`src/collector/main.py`), as a shallow embedding.

Modelling choices:
* HTTP attempts are driven by an oracle `Nat → AttemptResult P` giving, for each
  1-based attempt number, either a response (status code plus the result of
  `resp.json()`, where a parsed body may itself be the JSON literal `null`,
  i.e. Python `None`), a network-level error, or an unexpected exception.
* `sha256_hex` is an abstract parameter `hash : String → String`;
  `json.dumps` is an abstract parameter `dumps : P → String`.
* Timestamps (`utc_now_iso`) and elapsed times are inputs supplied at each call,
  modelling the clock readings the code takes.
* `asyncio.gather(..., return_exceptions=False)` propagates the first raised
  exception to `run_once`; the workers are folded sequentially, which preserves
  both the per-endpoint traces and the fact that any raising worker makes the
  whole run raise.
* Real numbers of the backoff and rate-limiter arithmetic are modelled as `ℚ`.
-/

deriving instance DecidableEq for Except

namespace Moltbook

/-- Python `str(x)` for `x : Optional[int]` as interpolated into the f-string
key of `SQLiteStore.log_request`: `None` prints as `"None"`. -/
def pyOptIntStr : Option Int → String
  | none => "None"
  | some n => toString n

/-- `EndpointSpec` dataclass (name, path template, params); parameter values
are modelled as the strings they format to. -/
structure EndpointSpec where
  name : String
  path_template : String
  params : List (String × String)

/-- Python `str.format(**params)` restricted to plain named placeholders, the
shape the endpoint catalog uses. The first argument is `none` in plain text,
`some acc` while reading a field name (accumulated reversed). A placeholder
with no matching param raises `KeyError`, modelled as `.error`. -/
def pyFormatAux (params : List (String × String)) : Option (List Char) → List Char → Except String String
  | none, [] => .ok ""
  | none, '\x7b' :: '\x7b' :: rest => (pyFormatAux params none rest).map (fun t => "\x7b" ++ t)
  | none, '\x7b' :: rest => pyFormatAux params (some []) rest
  | none, '\x7d' :: '\x7d' :: rest => (pyFormatAux params none rest).map (fun t => "\x7d" ++ t)
  | none, '\x7d' :: _ => .error "ValueError: single closing brace encountered in format string"
  | none, c :: rest => (pyFormatAux params none rest).map (fun t => String.mk [c] ++ t)
  | some _, [] => .error "ValueError: expected closing brace before end of string"
  | some acc, '\x7d' :: rest =>
      match params.lookup (String.mk acc.reverse) with
      | some v => (pyFormatAux params none rest).map (fun t => v ++ t)
      | none => .error ("KeyError: " ++ String.mk acc.reverse)
  | some _, '\x7b' :: _ => .error "ValueError: unexpected opening brace in field name"
  | some acc, c :: rest => pyFormatAux params (some (c :: acc)) rest

/-- `build_url` from `src/collector/main.py`: format the path template, ensure
exactly one slash between base and path. Python's `endswith("/")`,
`startswith("/")` and `path[1:]` are taken on the character sequence. -/
def build_url (base_url : String) (path_template : String) (params : List (String × String)) : Except String String :=
  match pyFormatAux params none path_template.data with
  | .error e => .error e
  | .ok path =>
    let b := if base_url.data.getLast? = some '/' then base_url.data else base_url.data ++ ['/']
    let p := if path.data.head? = some '/' then path.data.tail else path.data
    .ok (String.mk (b ++ p))

/-- `compute_backoff_s` from `src/collector/main.py`; `jfrac` is the source's
jitter ratio and `r` models the `random.random()` draw in `[0,1)`. -/
def compute_backoff_s (attempt : Int) (base cap jfrac r : ℚ) : ℚ :=
  let e := min cap (base * 2 ^ (max 0 (attempt - 1)).toNat)
  e + e * jfrac * r

/-- A row of the `request_log` table. -/
structure RequestLogRow where
  id : String
  ts_utc : String
  endpoint_name : String
  url : String
  status_code : Option Int
  elapsed_ms : Int
  attempt : Nat
  error : Option String
deriving DecidableEq

/-- The arguments of one `SQLiteStore.log_request` call (one per physical
HTTP attempt). -/
structure LogCall where
  endpoint : String
  url : String
  status : Option Int
  elapsed_ms : Int
  attempt : Nat
  error : Option String
deriving DecidableEq

/-- The pre-image of the dedup key of `log_request`:
`f"\x7bts\x7d|\x7bendpoint_name\x7d|\x7burl\x7d|\x7battempt\x7d|\x7bstatus_code\x7d|\x7berror or two-quotes\x7d"`.
Python `error or ''` collapses both `None` and the empty string to the empty
string. -/
def requestKey (ts : String) (c : LogCall) : String :=
  ts ++ "|" ++ c.endpoint ++ "|" ++ c.url ++ "|" ++ toString c.attempt ++ "|" ++ pyOptIntStr c.status ++ "|" ++ (c.error.getD "")

/-- `SQLiteStore.log_request`: `hash` models `sha256_hex`, `ts` the
`utc_now_iso()` reading taken inside the call. `INSERT OR IGNORE` on the
primary key `id` leaves the table unchanged when the key is already present. -/
def log_request (hash : String → String) (ts : String) (c : LogCall) (rows : List RequestLogRow) : List RequestLogRow :=
  let key := hash (requestKey ts c)
  if rows.any (fun r => r.id = key) then rows
  else rows ++ [⟨key, ts, c.endpoint, c.url, c.status, c.elapsed_ms, c.attempt, c.error⟩]

/-- A row of the `raw_events` table. -/
structure RawEventRow where
  id : String
  ts_utc : String
  endpoint_name : String
  url : String
  payload_json : String
deriving DecidableEq

/-- `SQLiteStore.store_payload`: `dumps` models
`json.dumps(payload, ensure_ascii=False, separators=(",", ":"))`; the key is
the hash of `endpoint|url|ts|hash(payload_json)`. -/
def store_payload {P : Type} (hash : String → String) (dumps : P → String) (ts : String) (endpoint_name url : String) (payload : P) (rows : List RawEventRow) : List RawEventRow :=
  let payload_json := dumps payload
  let key := hash (endpoint_name ++ "|" ++ url ++ "|" ++ ts ++ "|" ++ hash payload_json)
  if rows.any (fun r => r.id = key) then rows
  else rows ++ [⟨key, ts, endpoint_name, url, payload_json⟩]

/-- What the environment does on one physical HTTP attempt: a response whose
body either fails to parse (`.error kind`, the exception type name) or parses
to a JSON value (`.ok none` is the JSON literal `null`, Python `None`;
`.ok (some p)` any other value), an `httpx` timeout/network error, or any
other unexpected exception raised by the GET. -/
inductive AttemptResult (P : Type) where
  | response (status : Int) (body : Except String (Option P))
  | netError (kind : String)
  | unexpected (kind msg : String)

/-- Whether the attempt loop continues (after a backoff sleep) or returns. -/
inductive StepKind (P : Type) where
  | retry
  | halt (res : Option P)

/-- One iteration of the attempt loop of `fetch_json_with_retries`, in source
order: 401/403 auth rejection; 429/5xx retryable; `raise_for_status` raising
`HTTPStatusError` for any remaining non-2xx; JSON parse failure; success.
Network errors are retried, unexpected exceptions halt. Returns the logged
status code, the logged error classification, and the loop decision. -/
def attemptStep {P : Type} : AttemptResult P → Option Int × Option String × StepKind P
  | .response status body =>
    if status = 401 ∨ status = 403 then
      (some status, some ("auth_status:" ++ toString status), .halt none)
    else if status = 429 ∨ (500 ≤ status ∧ status ≤ 599) then
      (some status, some ("retryable_status:" ++ toString status), .retry)
    else if ¬ (200 ≤ status ∧ status ≤ 299) then
      (some status, some ("http_status:" ++ toString status), .halt none)
    else
      match body with
      | .error kind => (some status, some ("json_parse:" ++ kind), .halt none)
      | .ok data => (some status, none, .halt data)
  | .netError kind => (none, some ("network:" ++ kind), .retry)
  | .unexpected kind msg => (none, some ("unexpected:" ++ kind ++ ":" ++ msg.take 200), .halt none)

/-- The attempt loop `for attempt in range(1, max_retries + 1)`, unrolled on
remaining fuel; returns the final result and the `log_request` calls made, in
order. Each iteration makes exactly one `log_request` call. -/
def fetchLoop {P : Type} (oracle : Nat → AttemptResult P) (elapsedOf : Nat → Int) (ep url : String) : Nat → Nat → Option P × List LogCall
  | _, 0 => (none, [])
  | attempt, fuel + 1 =>
    let s := attemptStep (oracle attempt)
    let call : LogCall := ⟨ep, url, s.1, elapsedOf attempt, attempt, s.2.1⟩
    match s.2.2 with
    | .halt res => (res, [call])
    | .retry =>
      let rest := fetchLoop oracle elapsedOf ep url (attempt + 1) fuel
      (rest.1, call :: rest.2)

/-- `fetch_json_with_retries`: run the attempt loop from attempt 1 with at
most `max_retries` iterations. -/
def fetch_json_with_retries {P : Type} (oracle : Nat → AttemptResult P) (elapsedOf : Nat → Int) (ep url : String) (max_retries : Nat) : Option P × List LogCall :=
  fetchLoop oracle elapsedOf ep url 1 max_retries

/-- A store write performed during the run, in program order. -/
inductive StoreOp (P : Type) where
  | logReq (c : LogCall)
  | storeEvt (endpoint url : String) (payload : P)
deriving DecidableEq

/-- The `storeEvt` writes of a trace, projected. -/
def eventsOf {P : Type} (ops : List (StoreOp P)) : List (String × String × P) :=
  ops.filterMap fun op =>
    match op with
    | .storeEvt ep url p => some (ep, url, p)
    | .logReq _ => none

/-- `run_once.worker`: resolve the URL (a `KeyError` from the template
propagates out as `.error`), fetch with retries, and store the payload when
one was returned (`if data is not None`). Returns the fetch result and the
store writes in order. -/
def worker {P : Type} (oracle : Nat → AttemptResult P) (elapsedOf : Nat → Int) (base_url : String) (spec : EndpointSpec) (max_retries : Nat) : Except String (Option P × List (StoreOp P)) :=
  match build_url base_url spec.path_template spec.params with
  | .error e => .error e
  | .ok url =>
    let res := fetch_json_with_retries oracle elapsedOf spec.name url max_retries
    let evts : List (StoreOp P) :=
      match res.1 with
      | some d => [.storeEvt spec.name url d]
      | none => []
    .ok (res.1, res.2.map .logReq ++ evts)

/-- `run_once` after setup: run every endpoint's worker. `asyncio.gather` with
`return_exceptions=False` propagates any worker's exception to the awaiting
coroutine, so a single raising worker makes the whole run raise; the workers
are folded sequentially here. On success, returns per-endpoint results and
the concatenated store-write trace. -/
def run_once {P : Type} (oracles : EndpointSpec → Nat → AttemptResult P) (elapsedOf : Nat → Int) (base_url : String) (max_retries : Nat) : List EndpointSpec → Except String (List (String × Option P) × List (StoreOp P))
  | [] => .ok ([], [])
  | s :: rest =>
    match worker (oracles s) elapsedOf base_url s max_retries with
    | .error e => .error e
    | .ok (data, ops) =>
      match run_once oracles elapsedOf base_url max_retries rest with
      | .error e => .error e
      | .ok (results, ops2) => .ok ((s.name, data) :: results, ops ++ ops2)

/-- The §3 invariant on a store-write trace: every `storeEvt` is preceded by a
`logReq` with the same endpoint and URL, no error, and a 2xx status. -/
def eventJustified {P : Type} (ops : List (StoreOp P)) : Prop :=
  ∀ i ep url p, ops.get? i = some (.storeEvt ep url p) →
    ∃ c, StoreOp.logReq c ∈ ops.take i ∧ c.endpoint = ep ∧ c.url = url ∧
      c.error = none ∧ ∃ sc, c.status = some sc ∧ 200 ≤ sc ∧ sc ≤ 299

/-- The state of `RateLimiter`: the fixed minimum interval `1 / rps_per_host`
and the last-release reading of the monotonic clock. -/
structure LimiterState where
  min_interval : ℚ
  last_ts : ℚ

/-- `RateLimiter.__init__`: rejects a non-positive rate. -/
def RateLimiter.init (rps_per_host : ℚ) : Except String LimiterState :=
  if rps_per_host ≤ 0 then .error "rps_per_host must be > 0"
  else .ok ⟨1 / rps_per_host, 0⟩

/-- `RateLimiter.wait`: read the clock (`now`), sleep the remaining interval
when the elapsed time since the last release is short, then record a fresh
clock reading as the new `last_ts` and return. `eps ≥ 0` absorbs both the
overshoot of `asyncio.sleep` and the delay of the second clock read. Returns
the new state and the release time (the recorded reading). -/
def RateLimiter.wait (st : LimiterState) (now eps : ℚ) : LimiterState × ℚ :=
  let elapsed := now - st.last_ts
  let release := if elapsed < st.min_interval then now + (st.min_interval - elapsed) + eps else now + eps
  (⟨st.min_interval, release⟩, release)

/-- `N` consecutive `wait()` calls, each supplied its entry clock reading and
its slack; returns the release times in order. -/
def RateLimiter.runWaits (st : LimiterState) : List (ℚ × ℚ) → List ℚ
  | [] => []
  | (now, eps) :: rest =>
    let step := RateLimiter.wait st now eps
    step.2 :: RateLimiter.runWaits step.1 rest

/-! ## Concrete runs used as test vectors -/

/-- Elapsed-time reading that is always 0 ms. -/
def elZero : Nat → Int := fun _ => 0

/-- Environment: two network timeouts, then a 200 with payload 5. -/
def oracleFlaky : Nat → AttemptResult Nat := fun n =>
  if n ≤ 2 then .netError "ReadTimeout" else .response 200 (.ok (some 5))

/-- Environment: every attempt is rejected with 403. -/
def oracleAuth : Nat → AttemptResult Nat := fun _ => .response 403 (.ok (some 0))

/-- Environment: HTTP 200 whose body is not JSON (scenario C of the spec). -/
def oracleParseFail : Nat → AttemptResult Nat := fun _ => .response 200 (.error "JSONDecodeError")

/-- Environment: HTTP 200 whose body is the JSON literal `null`. -/
def oracleNull : Nat → AttemptResult Nat := fun _ => .response 200 (.ok none)

/-- Environment: HTTP 200 with payload 7 on every attempt. -/
def oracleOk : Nat → AttemptResult Nat := fun _ => .response 200 (.ok (some 7))

/-- A plain endpoint with no placeholders. -/
def specTrending : EndpointSpec := ⟨"trending", "/api/trending", []⟩

/-- An endpoint whose template names a placeholder absent from its params. -/
def specBad : EndpointSpec := ⟨"bad", "/api/\x7bmissing\x7d", []⟩

/-! ## Store idempotency (C3, C10) -/

/-- C3: both store insertions are idempotent by content-derived identity.
Inserting the same outcome (same timestamp reading and arguments) or the same
payload twice yields exactly one stored row: the repeated insert is the
identity on the table, from the empty table the row count is 1, and an insert
whose derived key already occurs in the table is a no-op, not an error. -/
theorem c3_idempotent_insert {P : Type} (hash : String → String) (ts : String)
    (c : LogCall) (rows : List RequestLogRow) (dumps : P → String)
    (ep url : String) (p : P) (erows : List RawEventRow) :
    log_request hash ts c (log_request hash ts c rows) = log_request hash ts c rows ∧
    (log_request hash ts c (log_request hash ts c [])).length = 1 ∧
    (rows.any (fun r => r.id = hash (requestKey ts c)) = true →
      log_request hash ts c rows = rows) ∧
    store_payload hash dumps ts ep url p (store_payload hash dumps ts ep url p erows)
      = store_payload hash dumps ts ep url p erows ∧
    (store_payload hash dumps ts ep url p (store_payload hash dumps ts ep url p [])).length = 1 ∧
    (erows.any (fun r => r.id = hash (ep ++ "|" ++ url ++ "|" ++ ts ++ "|" ++ hash (dumps p))) = true →
      store_payload hash dumps ts ep url p erows = erows) := by
  refine ⟨?_, ?_, ?_, ?_, ?_, ?_⟩
  · by_cases h : rows.any (fun r => r.id = hash (requestKey ts c)) = true
    · simp [log_request, h]
    · simp only [log_request, h, if_false, List.any_append]
      simp
  · simp [log_request]
  · intro h
    simp [log_request, h]
  · by_cases h : erows.any (fun r => r.id = hash (ep ++ "|" ++ url ++ "|" ++ ts ++ "|" ++ hash (dumps p))) = true
    · simp [store_payload, h]
    · simp only [store_payload, h, if_false, List.any_append]
      simp
  · simp [store_payload]
  · intro h
    simp [store_payload, h]

/-- C3 witness: a concrete hash, outcome and payload, with a pre-populated
table whose single row carries the colliding derived key. -/
theorem c3_idempotent_insert_witness :
    (([⟨("x" ++ requestKey "2026-01-01T00:00:00+00:00" ⟨"t", "u", some 200, 5, 1, none⟩ : String), "2026-01-01T00:00:00+00:00", "t", "u", some 200, 5, 1, none⟩] : List RequestLogRow).any
      (fun r => r.id = (fun s => "x" ++ s) (requestKey "2026-01-01T00:00:00+00:00" ⟨"t", "u", some 200, 5, 1, none⟩)) = true) ∧
    (log_request (fun s => "x" ++ s) "2026-01-01T00:00:00+00:00" ⟨"t", "u", some 200, 5, 1, none⟩
      (log_request (fun s => "x" ++ s) "2026-01-01T00:00:00+00:00" ⟨"t", "u", some 200, 5, 1, none⟩ [])).length = 1 :=
  ⟨by decide,
   (c3_idempotent_insert (fun s => "x" ++ s) "2026-01-01T00:00:00+00:00"
      ⟨"t", "u", some 200, 5, 1, none⟩ [] (fun n : Nat => toString n) "t" "u" 7 []).2.1⟩

/-- C10: `elapsed_ms` is not part of the dedup key of `log_request`, so two
calls that agree on timestamp, endpoint, URL, attempt, status and error but
differ in elapsed time collide; the second insert is a no-op and the stored
row keeps the first call's elapsed time. -/
theorem c10_elapsed_excluded_from_key (hash : String → String) (ts ep url : String)
    (st : Option Int) (att : Nat) (err : Option String) (e1 e2 : Int)
    (rows : List RequestLogRow) (_hne : e1 ≠ e2) :
    log_request hash ts ⟨ep, url, st, e2, att, err⟩
        (log_request hash ts ⟨ep, url, st, e1, att, err⟩ rows)
      = log_request hash ts ⟨ep, url, st, e1, att, err⟩ rows ∧
    log_request hash ts ⟨ep, url, st, e2, att, err⟩
        (log_request hash ts ⟨ep, url, st, e1, att, err⟩ [])
      = [⟨hash (requestKey ts ⟨ep, url, st, e1, att, err⟩), ts, ep, url, st, e1, att, err⟩] := by
  have hkey : requestKey ts ⟨ep, url, st, e2, att, err⟩
      = requestKey ts ⟨ep, url, st, e1, att, err⟩ := rfl
  constructor
  · by_cases h : rows.any (fun r => r.id = hash (requestKey ts ⟨ep, url, st, e1, att, err⟩)) = true
    · simp [log_request, hkey, h]
    · simp only [log_request, hkey, h, if_false, List.any_append]
      simp
  · simp [log_request, hkey]

/-- C10 witness: an identity-like hash, elapsed times 5 and 9. -/
theorem c10_elapsed_excluded_from_key_witness :
    (5 : Int) ≠ 9 ∧
    log_request (fun s => s) "2026-01-01T00:00:00+00:00" ⟨"t", "u", some 200, 9, 1, none⟩
        (log_request (fun s => s) "2026-01-01T00:00:00+00:00" ⟨"t", "u", some 200, 5, 1, none⟩ [])
      = [⟨requestKey "2026-01-01T00:00:00+00:00" ⟨"t", "u", some 200, 5, 1, none⟩,
          "2026-01-01T00:00:00+00:00", "t", "u", some 200, 5, 1, none⟩] :=
  ⟨by decide,
   (c10_elapsed_excluded_from_key (fun s => s) "2026-01-01T00:00:00+00:00" "t" "u"
      (some 200) 1 none 5 9 [] (by decide)).2⟩

/-! ## Backoff policy (C7) -/

/-- C7: for `attempt ≥ 1` and nonnegative parameters, the backoff delay equals
`min cap (base * 2 ^ (attempt - 1))` plus the additive jitter
`exponential * jitter_ratio * r` with `r` the uniform draw in `[0,1)`; the
jitter lies in `[0, exponential * jitter_ratio)` whenever that interval is
nonempty; the delay never exceeds `cap * (1 + jitter_ratio)`; and for every
fixed draw `r` the delay is non-decreasing in `attempt`, hence so is its
expected value over the uniform draw. -/
theorem c7_backoff_delay (attempt : Int) (base cap jfrac r : ℚ)
    (ha : 1 ≤ attempt) (hb : 0 ≤ base) (hc : 0 ≤ cap) (hj : 0 ≤ jfrac)
    (hr0 : 0 ≤ r) (hr1 : r < 1) :
    compute_backoff_s attempt base cap jfrac r
      = min cap (base * 2 ^ (attempt - 1).toNat)
        + min cap (base * 2 ^ (attempt - 1).toNat) * jfrac * r ∧
    0 ≤ min cap (base * 2 ^ (attempt - 1).toNat) * jfrac * r ∧
    (0 < min cap (base * 2 ^ (attempt - 1).toNat) * jfrac →
      min cap (base * 2 ^ (attempt - 1).toNat) * jfrac * r
        < min cap (base * 2 ^ (attempt - 1).toNat) * jfrac) ∧
    compute_backoff_s attempt base cap jfrac r ≤ cap * (1 + jfrac) ∧
    ∀ attempt2 : Int, attempt ≤ attempt2 →
      compute_backoff_s attempt base cap jfrac r ≤ compute_backoff_s attempt2 base cap jfrac r := by
  have hmax : max 0 (attempt - 1) = attempt - 1 := max_eq_right (by omega)
  have he0 : (0 : ℚ) ≤ min cap (base * 2 ^ (attempt - 1).toNat) :=
    le_min hc (by positivity)
  have hecap : min cap (base * 2 ^ (attempt - 1).toNat) ≤ cap := min_le_left _ _
  refine ⟨by simp [compute_backoff_s, hmax], ?_, ?_, ?_, ?_⟩
  · exact mul_nonneg (mul_nonneg he0 hj) hr0
  · intro h
    have := mul_lt_mul_of_pos_left hr1 h
    calc min cap (base * 2 ^ (attempt - 1).toNat) * jfrac * r
        < min cap (base * 2 ^ (attempt - 1).toNat) * jfrac * 1 := by
          nlinarith
      _ = min cap (base * 2 ^ (attempt - 1).toNat) * jfrac := by ring
  · have h1 : min cap (base * 2 ^ (attempt - 1).toNat) * jfrac * r
        ≤ min cap (base * 2 ^ (attempt - 1).toNat) * jfrac := by
      nlinarith [mul_nonneg he0 hj]
    have h2 : min cap (base * 2 ^ (attempt - 1).toNat) * jfrac ≤ cap * jfrac :=
      mul_le_mul_of_nonneg_right hecap hj
    simp only [compute_backoff_s, hmax]
    nlinarith
  · intro a2 h2
    have hk : (max 0 (attempt - 1)).toNat ≤ (max 0 (a2 - 1)).toNat := by omega
    have hpow : (2 : ℚ) ^ (max 0 (attempt - 1)).toNat ≤ 2 ^ (max 0 (a2 - 1)).toNat :=
      pow_le_pow_right₀ (by norm_num) hk
    have he12 : min cap (base * 2 ^ (max 0 (attempt - 1)).toNat)
        ≤ min cap (base * 2 ^ (max 0 (a2 - 1)).toNat) :=
      min_le_min le_rfl (mul_le_mul_of_nonneg_left hpow hb)
    have hjr : (0 : ℚ) ≤ jfrac * r := mul_nonneg hj hr0
    simp only [compute_backoff_s]
    nlinarith [mul_le_mul_of_nonneg_right he12 hjr]

/-! ## Attempt-loop characterization -/

/-- Every iteration of the attempt loop logs exactly one outcome row carrying
its attempt number: the logged attempt numbers starting at `a` are exactly
`a, a+1, ...` up to the number of iterations run, which is at most `fuel` and
at least 1 when `fuel ≥ 1`. -/
theorem fetchLoop_attempts {P : Type} (oracle : Nat → AttemptResult P) (el : Nat → Int)
    (ep url : String) (fuel : Nat) : ∀ a : Nat,
    (fetchLoop oracle el ep url a fuel).2.map (fun c => c.attempt)
        = List.range' a (fetchLoop oracle el ep url a fuel).2.length
      ∧ (fetchLoop oracle el ep url a fuel).2.length ≤ fuel
      ∧ (1 ≤ fuel → 1 ≤ (fetchLoop oracle el ep url a fuel).2.length) := by
  induction fuel with
  | zero => intro a; simp [fetchLoop]
  | succ n ih =>
    intro a
    cases hstep : (attemptStep (oracle a)).2.2 with
    | halt res =>
      simp [fetchLoop, hstep, List.range'_one]
    | retry =>
      obtain ⟨ih1, ih2, _⟩ := ih (a + 1)
      simp only [fetchLoop, hstep]
      refine ⟨?_, by simpa using Nat.succ_le_succ ih2, fun _ => by simp⟩
      simp only [List.map_cons, List.length_cons, ih1, List.range'_succ]

/-- If attempts `a, ..., a+k-1` are classified retryable and attempt `a+k`
halts the loop (with `k < fuel`), the loop returns that attempt's result and
the trace is exactly one logged row per attempt `a, ..., a+k`. -/
theorem fetchLoop_halt_at {P : Type} (oracle : Nat → AttemptResult P) (el : Nat → Int)
    (ep url : String) : ∀ (k a fuel : Nat), k < fuel →
    (∀ j, a ≤ j → j < a + k → (attemptStep (oracle j)).2.2 = StepKind.retry) →
    ∀ res : Option P, (attemptStep (oracle (a + k))).2.2 = StepKind.halt res →
    fetchLoop oracle el ep url a fuel
      = (res, (List.range' a (k + 1)).map (fun j =>
          ⟨ep, url, (attemptStep (oracle j)).1, el j, j, (attemptStep (oracle j)).2.1⟩)) := by
  intro k
  induction k with
  | zero =>
    intro a fuel hk hret res hhalt
    obtain ⟨f, rfl⟩ : ∃ f, fuel = f + 1 := ⟨fuel - 1, by omega⟩
    simp only [Nat.add_zero] at hhalt
    simp [fetchLoop, hhalt, List.range'_one]
  | succ k ih =>
    intro a fuel hk hret res hhalt
    obtain ⟨f, rfl⟩ : ∃ f, fuel = f + 1 := ⟨fuel - 1, by omega⟩
    have h0 : (attemptStep (oracle a)).2.2 = StepKind.retry :=
      hret a le_rfl (by omega)
    have hhalt2 : (attemptStep (oracle (a + 1 + k))).2.2 = StepKind.halt res := by
      have he : a + 1 + k = a + (k + 1) := by omega
      rw [he]; exact hhalt
    have ihres := ih (a + 1) f (by omega)
      (fun j hj1 hj2 => hret j (by omega) (by omega)) res hhalt2
    simp only [fetchLoop, h0, ihres]
    conv_rhs => rw [List.range'_succ]
    simp

/-- A loop iteration can return a non-`None` payload only through the success
branch: a 2xx status, a parsed body, and no error logged. -/
theorem attemptStep_halt_some {P : Type} (r : AttemptResult P) (d : P)
    (h : (attemptStep r).2.2 = StepKind.halt (some d)) :
    (attemptStep r).2.1 = none ∧
    ∃ s, (attemptStep r).1 = some s ∧ 200 ≤ s ∧ s ≤ 299 := by
  cases r with
  | response status body =>
    by_cases h1 : status = 401 ∨ status = 403
    · simp [attemptStep, h1] at h
    · by_cases h2 : status = 429 ∨ (500 ≤ status ∧ status ≤ 599)
      · simp [attemptStep, h1, h2] at h
      · by_cases h3 : 200 ≤ status ∧ status ≤ 299
        · cases body with
          | error kind => simp [attemptStep, h1, h2, h3] at h
          | ok data =>
            have hstep : attemptStep (AttemptResult.response status (Except.ok data))
                = (some status, none, StepKind.halt data) := by
              simp [attemptStep, h1, h2, h3]
            rw [hstep]
            exact ⟨rfl, status, rfl, h3.1, h3.2⟩
        · simp [attemptStep, h1, h2, h3] at h
  | netError kind => simp [attemptStep] at h
  | unexpected kind msg => simp [attemptStep] at h

/-- If the attempt loop returns a non-`None` payload, its trace contains a row
with the same endpoint and URL, no error, and a 2xx status. -/
theorem fetchLoop_success {P : Type} (oracle : Nat → AttemptResult P) (el : Nat → Int)
    (ep url : String) : ∀ (fuel a : Nat) (d : P) (calls : List LogCall),
    fetchLoop oracle el ep url a fuel = (some d, calls) →
    ∃ c ∈ calls, c.endpoint = ep ∧ c.url = url ∧ c.error = none ∧
      ∃ s, c.status = some s ∧ 200 ≤ s ∧ s ≤ 299 := by
  intro fuel
  induction fuel with
  | zero => intro a d calls h; simp [fetchLoop] at h
  | succ n ih =>
    intro a d calls h
    cases hstep : (attemptStep (oracle a)).2.2 with
    | halt res =>
      simp only [fetchLoop, hstep, Prod.mk.injEq] at h
      obtain ⟨hres, hcalls⟩ := h
      subst hres
      obtain ⟨herr, s, hs, h200, h299⟩ := attemptStep_halt_some (oracle a) d hstep
      refine ⟨⟨ep, url, (attemptStep (oracle a)).1, el a, a, (attemptStep (oracle a)).2.1⟩,
        ?_, rfl, rfl, herr, s, hs, h200, h299⟩
      rw [← hcalls]
      exact List.mem_singleton_self _
    | retry =>
      simp only [fetchLoop, hstep, Prod.mk.injEq] at h
      obtain ⟨hres, hcalls⟩ := h
      have hrest : fetchLoop oracle el ep url (a + 1) n
          = (some d, (fetchLoop oracle el ep url (a + 1) n).2) := by
        rw [← hres]
      obtain ⟨c, hc, hprops⟩ := ih (a + 1) d _ hrest
      refine ⟨c, ?_, hprops⟩
      rw [← hcalls]
      exact List.mem_cons_of_mem _ hc

/-- C7 witness: attempt 3 with base 1, cap 30, ratio 1/4, draw 1/2. -/
theorem c7_backoff_delay_witness :
    (1 : Int) ≤ 3 ∧ compute_backoff_s 3 1 30 (1/4) (1/2) ≤ 30 * (1 + 1/4) :=
  ⟨by norm_num,
   (c7_backoff_delay 3 1 30 (1/4) (1/2) (by norm_num) (by norm_num) (by norm_num)
      (by norm_num) (by norm_num) (by norm_num)).2.2.2.1⟩

/-! ## C1: one outcome row per attempt, 1 ≤ rows ≤ max_retries -/

/-- C1: with `max_retries ≥ 1`, every execution of `fetch_json_with_retries`
records at least 1 and at most `max_retries` outcome rows, and the logged
attempt numbers are exactly `1, ..., n` where `n` is the row count — i.e. each
physical attempt records exactly one row and the count equals the attempt
number at which the terminal state (return or exhaustion) was reached. -/
theorem c1_one_row_per_attempt {P : Type} (oracle : Nat → AttemptResult P)
    (el : Nat → Int) (ep url : String) (max_retries : Nat) (h : 1 ≤ max_retries) :
    1 ≤ (fetch_json_with_retries oracle el ep url max_retries).2.length ∧
    (fetch_json_with_retries oracle el ep url max_retries).2.length ≤ max_retries ∧
    (fetch_json_with_retries oracle el ep url max_retries).2.map (fun c => c.attempt)
      = List.range' 1 (fetch_json_with_retries oracle el ep url max_retries).2.length := by
  obtain ⟨h1, h2, h3⟩ := fetchLoop_attempts oracle el ep url max_retries 1
  exact ⟨h3 h, h2, h1⟩

/-- C1 witness: two network timeouts then a success, with `max_retries = 6`. -/
theorem c1_one_row_per_attempt_witness :
    1 ≤ 6 ∧
    (1 ≤ (fetch_json_with_retries oracleFlaky elZero "t" "https://h.test/api/t" 6).2.length ∧
     (fetch_json_with_retries oracleFlaky elZero "t" "https://h.test/api/t" 6).2.length ≤ 6 ∧
     (fetch_json_with_retries oracleFlaky elZero "t" "https://h.test/api/t" 6).2.map (fun c => c.attempt)
       = List.range' 1 (fetch_json_with_retries oracleFlaky elZero "t" "https://h.test/api/t" 6).2.length) :=
  ⟨by norm_num, c1_one_row_per_attempt oracleFlaky elZero "t" "https://h.test/api/t" 6 (by norm_num)⟩

/-! ## C5: 401/403 is terminal with a single auth row -/

/-- C5: if the attempts before attempt `k` were all retryable and attempt `k`
receives status 401 or 403, the function records exactly `k` rows, the last
being attempt `k`'s row with error `auth_status:<code>`, returns no payload
and makes no further attempt; moreover any run whose first attempt halts the
loop (auth rejection or non-retryable terminal failure) records exactly one
row. -/
theorem c5_auth_rejected {P : Type} (oracle : Nat → AttemptResult P) (el : Nat → Int)
    (ep url : String) (max_retries k : Nat) (s : Int) (body : Except String (Option P)) :
    (1 ≤ k → k ≤ max_retries →
      (∀ j, 1 ≤ j → j < k → (attemptStep (oracle j)).2.2 = StepKind.retry) →
      oracle k = AttemptResult.response s body → (s = 401 ∨ s = 403) →
      (fetch_json_with_retries oracle el ep url max_retries).1 = none ∧
      (fetch_json_with_retries oracle el ep url max_retries).2.length = k ∧
      (fetch_json_with_retries oracle el ep url max_retries).2.getLast?
        = some ⟨ep, url, some s, el k, k, some ("auth_status:" ++ toString s)⟩) ∧
    (∀ res : Option P, (attemptStep (oracle 1)).2.2 = StepKind.halt res → 1 ≤ max_retries →
      (fetch_json_with_retries oracle el ep url max_retries).2.length = 1) := by
  constructor
  · intro hk1 hkm hret horacle hs
    have hstep : attemptStep (oracle k)
        = (some s, some ("auth_status:" ++ toString s), StepKind.halt none) := by
      rw [horacle]
      simp only [attemptStep]
      rw [if_pos hs]
    have hfix : 1 + (k - 1) = k := by omega
    have hmain := fetchLoop_halt_at oracle el ep url (k - 1) 1 max_retries (by omega)
      (fun j hj1 hj2 => hret j hj1 (by omega)) none (by rw [hfix, hstep])
    have hk : (k - 1) + 1 = k := by omega
    rw [hk] at hmain
    unfold fetch_json_with_retries
    rw [hmain]
    refine ⟨rfl, by simp, ?_⟩
    obtain ⟨m, rfl⟩ : ∃ m, k = m + 1 := ⟨k - 1, by omega⟩
    rw [List.range'_concat, List.map_append]
    simp only [List.map_cons, List.map_nil]
    rw [List.getLast?_concat]
    have h1m : 1 + 1 * m = m + 1 := by omega
    rw [h1m, hstep]
  · intro res hhalt hm
    have hmain := fetchLoop_halt_at oracle el ep url 0 1 max_retries (by omega)
      (fun j hj1 hj2 => absurd hj1 (by omega)) res (by simpa using hhalt)
    unfold fetch_json_with_retries
    rw [hmain]
    simp

/-- C5 witness: a 403 on the first attempt with `max_retries = 6`. -/
theorem c5_auth_rejected_witness :
    (fetch_json_with_retries oracleAuth elZero "user" "https://h.test/api/user" 6).1 = none ∧
    (fetch_json_with_retries oracleAuth elZero "user" "https://h.test/api/user" 6).2.length = 1 ∧
    (fetch_json_with_retries oracleAuth elZero "user" "https://h.test/api/user" 6).2.getLast?
      = some ⟨"user", "https://h.test/api/user", some 403, 0, 1,
          some ("auth_status:" ++ toString (403 : Int))⟩ :=
  (c5_auth_rejected oracleAuth elZero "user" "https://h.test/api/user" 6 1 403
      (Except.ok (some 0))).1
    (by norm_num) (by norm_num) (fun j hj1 hj2 => absurd hj1 (by omega)) rfl (Or.inr rfl)

/-! ## Worker-level helpers -/

/-- When the URL resolves, the worker returns the fetch result, the outcome
log calls, and a payload write exactly when the fetch returned a payload. -/
theorem worker_ok_of_build {P : Type} (oracle : Nat → AttemptResult P) (el : Nat → Int)
    (base_url : String) (spec : EndpointSpec) (max_retries : Nat) (url : String)
    (hurl : build_url base_url spec.path_template spec.params = Except.ok url) :
    worker oracle el base_url spec max_retries = Except.ok
      ((fetch_json_with_retries oracle el spec.name url max_retries).1,
       (fetch_json_with_retries oracle el spec.name url max_retries).2.map StoreOp.logReq ++
         (match (fetch_json_with_retries oracle el spec.name url max_retries).1 with
          | some d => [StoreOp.storeEvt spec.name url d]
          | none => [])) := by
  unfold worker
  rw [hurl]

/-- Outcome log calls alone contain no payload writes. -/
theorem eventsOf_map_logReq {P : Type} (l : List LogCall) :
    eventsOf (l.map StoreOp.logReq : List (StoreOp P)) = [] := by
  induction l with
  | nil => rfl
  | cons c t ih =>
    simp only [eventsOf, List.map_cons, List.filterMap_cons] at ih ⊢
    exact ih

/-- `eventsOf` distributes over concatenation of traces. -/
theorem eventsOf_append {P : Type} (l1 l2 : List (StoreOp P)) :
    eventsOf (l1 ++ l2) = eventsOf l1 ++ eventsOf l2 := by
  simp [eventsOf, List.filterMap_append]

/-! ## C6: 2xx with unparseable body is terminal, no retry, no event -/

/-- C6 amended: if the attempts before attempt `k` were retryable and attempt
`k` receives a 2xx status whose body fails to parse, the worker records
exactly `k` outcome rows, the last being attempt `k`'s row with error
`json_parse:<kind>` (the exception type name — not `parse_failure:<kind>` as
the spec words it), returns no payload, performs no retry, and writes no
`RawEvent`. -/
theorem c6_parse_failure_terminal {P : Type} (oracle : Nat → AttemptResult P) (el : Nat → Int)
    (base_url : String) (spec : EndpointSpec) (url : String) (max_retries k : Nat)
    (s : Int) (kind : String)
    (hurl : build_url base_url spec.path_template spec.params = Except.ok url)
    (hk1 : 1 ≤ k) (hkm : k ≤ max_retries)
    (hret : ∀ j, 1 ≤ j → j < k → (attemptStep (oracle j)).2.2 = StepKind.retry)
    (horacle : oracle k = AttemptResult.response s (Except.error kind))
    (h200 : 200 ≤ s) (h299 : s ≤ 299) :
    ∃ ops, worker oracle el base_url spec max_retries = Except.ok (none, ops) ∧
      ops.length = k ∧
      ops.getLast? = some (StoreOp.logReq
        ⟨spec.name, url, some s, el k, k, some ("json_parse:" ++ kind)⟩) ∧
      eventsOf ops = [] := by
  have hstep : attemptStep (oracle k)
      = (some s, some ("json_parse:" ++ kind), StepKind.halt none) := by
    rw [horacle]
    simp only [attemptStep]
    rw [if_neg (by omega), if_neg (by omega), if_neg (not_not_intro ⟨h200, h299⟩)]
  have hfix : 1 + (k - 1) = k := by omega
  have hmain := fetchLoop_halt_at oracle el spec.name url (k - 1) 1 max_retries (by omega)
    (fun j hj1 hj2 => hret j hj1 (by omega)) none (by rw [hfix, hstep])
  have hk : (k - 1) + 1 = k := by omega
  rw [hk] at hmain
  have hfe : fetch_json_with_retries oracle el spec.name url max_retries
      = (none, (List.range' 1 k).map (fun j =>
          ⟨spec.name, url, (attemptStep (oracle j)).1, el j, j, (attemptStep (oracle j)).2.1⟩)) := hmain
  have hw := worker_ok_of_build oracle el base_url spec max_retries url hurl
  rw [hfe] at hw
  simp only [List.append_nil] at hw
  refine ⟨_, hw, by simp, ?_, eventsOf_map_logReq _⟩
  obtain ⟨m, rfl⟩ : ∃ m, k = m + 1 := ⟨k - 1, by omega⟩
  rw [List.range'_concat, List.map_append, List.map_append]
  simp only [List.map_cons, List.map_nil]
  rw [List.getLast?_concat]
  have h1m : 1 + 1 * m = m + 1 := by omega
  rw [h1m, hstep]

/-- C6 witness: HTTP 200 with unparseable body on the first attempt. -/
theorem c6_parse_failure_terminal_witness :
    ∃ ops, worker oracleParseFail elZero "https://h.test" specTrending 6
        = Except.ok (none, ops) ∧
      ops.length = 1 ∧
      ops.getLast? = some (StoreOp.logReq
        ⟨"trending", "https://h.test/api/trending", some 200, 0, 1,
          some ("json_parse:" ++ "JSONDecodeError")⟩) ∧
      eventsOf ops = [] :=
  c6_parse_failure_terminal oracleParseFail elZero "https://h.test" specTrending
    "https://h.test/api/trending" 6 1 200 "JSONDecodeError" (by decide) (by norm_num) (by norm_num)
    (fun j hj1 hj2 => absurd hj1 (by omega)) rfl (by norm_num) (by norm_num)

/-- C6 counterexample to the claim's error string: on HTTP 200 with body
`not-json` the single recorded row carries error `json_parse:JSONDecodeError`,
which is not the `parse_failure:<kind>` string the claim asserts. -/
theorem c6_error_string_counterexample :
    (fetch_json_with_retries oracleParseFail elZero "trending" "https://h.test/api/trending" 6).2.map
        (fun c => c.error) = [some "json_parse:JSONDecodeError"] ∧
    ¬ (fetch_json_with_retries oracleParseFail elZero "trending" "https://h.test/api/trending" 6).2.map
        (fun c => c.error) = [some ("parse_failure:" ++ "JSONDecodeError")] := by
  refine ⟨by decide, by decide⟩

/-! ## C2: success payloads are written back as events -/

/-- C2 amended: if attempt `k` receives a 2xx status whose body parses to a
non-null JSON value `d` (after retryable attempts only), the worker writes
exactly one payload event, with the endpoint's name and its resolved URL. -/
theorem c2_success_writes_one_event {P : Type} (oracle : Nat → AttemptResult P) (el : Nat → Int)
    (base_url : String) (spec : EndpointSpec) (url : String) (max_retries k : Nat)
    (s : Int) (d : P)
    (hurl : build_url base_url spec.path_template spec.params = Except.ok url)
    (hk1 : 1 ≤ k) (hkm : k ≤ max_retries)
    (hret : ∀ j, 1 ≤ j → j < k → (attemptStep (oracle j)).2.2 = StepKind.retry)
    (horacle : oracle k = AttemptResult.response s (Except.ok (some d)))
    (h200 : 200 ≤ s) (h299 : s ≤ 299) :
    ∃ ops, worker oracle el base_url spec max_retries = Except.ok (some d, ops) ∧
      eventsOf ops = [(spec.name, url, d)] := by
  have hstep : attemptStep (oracle k) = (some s, none, StepKind.halt (some d)) := by
    rw [horacle]
    simp only [attemptStep]
    rw [if_neg (by omega), if_neg (by omega), if_neg (not_not_intro ⟨h200, h299⟩)]
  have hfix : 1 + (k - 1) = k := by omega
  have hmain := fetchLoop_halt_at oracle el spec.name url (k - 1) 1 max_retries (by omega)
    (fun j hj1 hj2 => hret j hj1 (by omega)) (some d) (by rw [hfix, hstep])
  have hk : (k - 1) + 1 = k := by omega
  rw [hk] at hmain
  have hfe : fetch_json_with_retries oracle el spec.name url max_retries
      = (some d, (List.range' 1 k).map (fun j =>
          ⟨spec.name, url, (attemptStep (oracle j)).1, el j, j, (attemptStep (oracle j)).2.1⟩)) := hmain
  have hw := worker_ok_of_build oracle el base_url spec max_retries url hurl
  rw [hfe] at hw
  refine ⟨_, hw, ?_⟩
  rw [eventsOf_append, eventsOf_map_logReq]
  simp [eventsOf, List.filterMap_cons]

/-- C2 witness: a clean 200 with payload 7 on the first attempt. -/
theorem c2_success_writes_one_event_witness :
    ∃ ops, worker oracleOk elZero "https://h.test" specTrending 6
        = Except.ok (some 7, ops) ∧
      eventsOf ops = [("trending", "https://h.test/api/trending", 7)] :=
  c2_success_writes_one_event oracleOk elZero "https://h.test" specTrending
    "https://h.test/api/trending" 6 1 200 7 (by decide) (by norm_num) (by norm_num)
    (fun j hj1 hj2 => absurd hj1 (by omega)) rfl (by norm_num) (by norm_num)

/-- C2 counterexample: an attempt that receives HTTP 200 whose body parses as
JSON — the literal `null` — reaches the Success terminal state (one outcome
row with a 2xx status and no error) yet the worker writes zero `RawEvent`
rows, because Python cannot distinguish the parsed `None` payload from the
no-payload failure result. -/
theorem c2_null_payload_counterexample :
    worker oracleNull elZero "https://h.test" specTrending 6
      = Except.ok (none, [StoreOp.logReq
          ⟨"trending", "https://h.test/api/trending", some 200, 0, 1, none⟩]) ∧
    eventsOf [(StoreOp.logReq
        ⟨"trending", "https://h.test/api/trending", some 200, 0, 1, none⟩ : StoreOp Nat)]
      = [] := by
  exact ⟨by decide, rfl⟩

/-! ## C8: events are justified by an error-free 2xx outcome -/

/-- The invariant is closed under concatenating traces. -/
theorem eventJustified_append {P : Type} {l1 l2 : List (StoreOp P)}
    (h1 : eventJustified l1) (h2 : eventJustified l2) : eventJustified (l1 ++ l2) := by
  intro i ep url p hget
  rcases lt_or_ge i l1.length with hi | hi
  · rw [List.get?_append hi] at hget
    obtain ⟨c, hc, hrest⟩ := h1 i ep url p hget
    refine ⟨c, ?_, hrest⟩
    rw [List.take_append_eq_append_take]
    exact List.mem_append_left _ hc
  · rw [List.get?_append_right hi] at hget
    obtain ⟨c, hc, hrest⟩ := h2 (i - l1.length) ep url p hget
    refine ⟨c, ?_, hrest⟩
    rw [List.take_append_eq_append_take]
    exact List.mem_append_right _ hc

/-- A trace of outcome log calls followed by one payload event for which the
calls contain an error-free 2xx row with the event's endpoint and URL
satisfies the invariant. -/
theorem eventJustified_logs_then_event {P : Type} (calls : List LogCall) (n u : String) (d : P)
    (hc : ∃ c ∈ calls, c.endpoint = n ∧ c.url = u ∧ c.error = none ∧
      ∃ s, c.status = some s ∧ 200 ≤ s ∧ s ≤ 299) :
    eventJustified (calls.map StoreOp.logReq ++ [StoreOp.storeEvt n u d]) := by
  intro i ep url p hget
  rcases lt_or_ge i (calls.map StoreOp.logReq : List (StoreOp P)).length with hi | hi
  · rw [List.get?_append hi, List.get?_map] at hget
    cases hcc : calls.get? i with
    | none => rw [hcc] at hget; simp at hget
    | some c0 => rw [hcc] at hget; simp at hget
  · rw [List.get?_append_right hi] at hget
    cases hj : i - (calls.map StoreOp.logReq : List (StoreOp P)).length with
    | zero =>
      rw [hj] at hget
      simp only [List.get?_cons_zero, Option.some.injEq, StoreOp.storeEvt.injEq] at hget
      obtain ⟨hn, hu, hd⟩ := hget
      obtain ⟨c, hcm, h1, h2, h3, s, h4, h5, h6⟩ := hc
      refine ⟨c, ?_, by rw [h1, hn], by rw [h2, hu], h3, s, h4, h5, h6⟩
      rw [List.take_append_eq_append_take]
      refine List.mem_append_left _ ?_
      rw [List.take_of_length_le (by simpa using hi)]
      exact List.mem_map_of_mem _ hcm
    | succ m => rw [hj] at hget; simp at hget

/-- The trace of one worker satisfies the invariant: a payload event is
written only after the fetch succeeded, and a successful fetch logged an
error-free 2xx row for the same endpoint and URL. -/
theorem worker_eventJustified {P : Type} (oracle : Nat → AttemptResult P) (el : Nat → Int)
    (base_url : String) (spec : EndpointSpec) (max_retries : Nat)
    (res : Option P) (ops : List (StoreOp P))
    (h : worker oracle el base_url spec max_retries = Except.ok (res, ops)) :
    eventJustified ops := by
  cases hurl : build_url base_url spec.path_template spec.params with
  | error e =>
    unfold worker at h
    rw [hurl] at h
    simp at h
  | ok url =>
    rw [worker_ok_of_build oracle el base_url spec max_retries url hurl] at h
    simp only [Except.ok.injEq, Prod.mk.injEq] at h
    obtain ⟨hres, hops⟩ := h
    rw [← hops]
    cases hfd : (fetch_json_with_retries oracle el spec.name url max_retries).1 with
    | none =>
      simp only [List.append_nil]
      intro i ep url' p hget
      rw [List.get?_map] at hget
      cases hcc : (fetch_json_with_retries oracle el spec.name url max_retries).2.get? i with
      | none => rw [hcc] at hget; simp at hget
      | some c0 => rw [hcc] at hget; simp at hget
    | some d =>
      refine eventJustified_logs_then_event _ _ _ _ ?_
      refine fetchLoop_success oracle el spec.name url max_retries 1 d _ ?_
      rw [← hfd]
      exact Prod.mk.eta.symm

/-- C8: in any completed run, every `RawEvent` write in the store trace is
preceded by a `RequestOutcome` write with the same endpoint name and URL, no
error, and a 2xx status. -/
theorem c8_event_implies_success_outcome {P : Type} (oracles : EndpointSpec → Nat → AttemptResult P)
    (el : Nat → Int) (base_url : String) (max_retries : Nat) (specs : List EndpointSpec)
    (results : List (String × Option P)) (ops : List (StoreOp P))
    (h : run_once oracles el base_url max_retries specs = Except.ok (results, ops)) :
    eventJustified ops := by
  induction specs generalizing results ops with
  | nil =>
    simp only [run_once, Except.ok.injEq, Prod.mk.injEq] at h
    rw [← h.2]
    intro i ep url p hget
    simp at hget
  | cons s rest ih =>
    unfold run_once at h
    cases hw : worker (oracles s) el base_url s max_retries with
    | error e => rw [hw] at h; simp at h
    | ok pr =>
      obtain ⟨res1, ops1⟩ := pr
      rw [hw] at h
      cases hr : run_once oracles el base_url max_retries rest with
      | error e => rw [hr] at h; simp at h
      | ok pr2 =>
        obtain ⟨res2, ops2⟩ := pr2
        rw [hr] at h
        simp only [Except.ok.injEq, Prod.mk.injEq] at h
        obtain ⟨hres, hops⟩ := h
        rw [← hops]
        exact eventJustified_append
          (worker_eventJustified (oracles s) el base_url s max_retries res1 ops1 hw)
          (ih res2 ops2 hr)

/-- C8 witness: a one-endpoint run whose fetch succeeds; the resulting trace
is one success outcome row followed by one payload event. -/
theorem c8_event_implies_success_outcome_witness :
    eventJustified [StoreOp.logReq
        ⟨"trending", "https://h.test/api/trending", some 200, 0, 1, none⟩,
      StoreOp.storeEvt "trending" "https://h.test/api/trending" (7 : Nat)] :=
  c8_event_implies_success_outcome (fun _ => oracleOk) elZero "https://h.test" 6
    [specTrending] [("trending", some 7)] _ (by decide)

/-! ## C4: resolution errors and run failure -/

/-- C4 amended: a run (after successful setup) completes exactly when every
endpoint's path template resolves. The reverse direction shows a terminal
fetch failure never aborts the run — the run completes whatever the HTTP
environment does — while the forward direction shows that a single
endpoint's `ResolutionError` propagates out of its worker through the gather
and fails the whole run, rather than skipping only that endpoint. -/
theorem c4_run_completes_iff_all_resolve {P : Type} (oracles : EndpointSpec → Nat → AttemptResult P)
    (el : Nat → Int) (base_url : String) (max_retries : Nat) (specs : List EndpointSpec) :
    (∃ pr, run_once oracles el base_url max_retries specs = Except.ok pr)
      ↔ ∀ s ∈ specs, ∃ u, build_url base_url s.path_template s.params = Except.ok u := by
  induction specs with
  | nil => simp [run_once]
  | cons s rest ih =>
    constructor
    · rintro ⟨pr, h⟩
      unfold run_once at h
      cases hw : worker (oracles s) el base_url s max_retries with
      | error e => rw [hw] at h; simp at h
      | ok pr1 =>
        obtain ⟨d1, o1⟩ := pr1
        rw [hw] at h
        cases hr : run_once oracles el base_url max_retries rest with
        | error e => rw [hr] at h; simp at h
        | ok pr2 =>
          intro t ht
          rcases List.mem_cons.mp ht with rfl | ht2
          · unfold worker at hw
            cases hu : build_url base_url t.path_template t.params with
            | error e => rw [hu] at hw; simp at hw
            | ok u => exact ⟨u, rfl⟩
          · exact ih.mp ⟨pr2, hr⟩ t ht2
    · intro hall
      obtain ⟨u, hu⟩ := hall s (List.mem_cons_self s rest)
      obtain ⟨pr2, hr⟩ := ih.mpr (fun t ht => hall t (List.mem_cons_of_mem _ ht))
      obtain ⟨r2, o2⟩ := pr2
      refine ⟨((s.name, (fetch_json_with_retries (oracles s) el s.name u max_retries).1) :: r2,
        ((fetch_json_with_retries (oracles s) el s.name u max_retries).2.map StoreOp.logReq ++
          (match (fetch_json_with_retries (oracles s) el s.name u max_retries).1 with
           | some d => [StoreOp.storeEvt s.name u d]
           | none => [])) ++ o2), ?_⟩
      unfold run_once
      rw [worker_ok_of_build (oracles s) el base_url s max_retries u hu, hr]

/-- C4 witness: a single resolvable endpoint completes the run, whatever the
HTTP environment does. -/
theorem c4_run_completes_iff_all_resolve_witness :
    ∃ pr, run_once (fun _ => oracleOk) elZero "https://h.test" 6 [specTrending]
      = Except.ok pr :=
  (c4_run_completes_iff_all_resolve (fun _ => oracleOk) elZero "https://h.test" 6
      [specTrending]).mpr
    (by
      intro s hs
      rw [List.mem_singleton] at hs
      subst hs
      exact ⟨"https://h.test/api/trending", by decide⟩)

/-- C4 counterexample: two endpoints, the first with an unresolvable
placeholder; the whole run raises the `KeyError` even though setup succeeded
and the second endpoint would have succeeded. -/
theorem c4_resolution_error_counterexample :
    run_once (fun _ => oracleOk) elZero "https://h.test" 6 [specBad, specTrending]
      = Except.error "KeyError: missing" ∧
    build_url "https://h.test" specTrending.path_template specTrending.params
      = Except.ok "https://h.test/api/trending" := by
  exact ⟨by decide, by decide⟩

/-! ## C9: rate limiter spacing -/

/-- One `wait()` releases no earlier than the previous release plus the
minimum interval. -/
theorem wait_release_lb (st : LimiterState) (now eps : ℚ) (heps : 0 ≤ eps) :
    st.last_ts + st.min_interval ≤ (RateLimiter.wait st now eps).2 := by
  simp only [RateLimiter.wait]
  split_ifs with h
  · linarith
  · linarith [not_lt.mp h]

/-- One `wait()` releases no earlier than its entry clock reading. -/
theorem wait_release_ge_now (st : LimiterState) (now eps : ℚ) (heps : 0 ≤ eps) :
    now ≤ (RateLimiter.wait st now eps).2 := by
  simp only [RateLimiter.wait]
  split_ifs with h
  · linarith
  · linarith

/-- `runWaits` produces one release per call. -/
theorem runWaits_length (l : List (ℚ × ℚ)) : ∀ st : LimiterState,
    (RateLimiter.runWaits st l).length = l.length := by
  induction l with
  | nil => intro st; rfl
  | cons p rest ih =>
    intro st
    obtain ⟨now, eps⟩ := p
    simp only [RateLimiter.runWaits, List.length_cons, ih]

/-- The last of a nonempty sequence of releases is at least `N` minimum
intervals after the starting `last_ts`, where `N` is the number of calls. -/
theorem runWaits_getLast_lb : ∀ (l : List (ℚ × ℚ)) (st : LimiterState),
    (∀ p ∈ l, 0 ≤ p.2) → ∀ rN : ℚ,
    (RateLimiter.runWaits st l).getLast? = some rN → l ≠ [] →
    st.last_ts + (l.length : ℚ) * st.min_interval ≤ rN := by
  intro l
  induction l with
  | nil => intro st _ rN _ hne; exact absurd rfl hne
  | cons p rest ih =>
    intro st hpos rN hlast _
    obtain ⟨now, eps⟩ := p
    have heps : 0 ≤ eps := hpos (now, eps) (List.mem_cons_self _ _)
    have hlb := wait_release_lb st now eps heps
    cases hrest : rest with
    | nil =>
      subst hrest
      simp only [RateLimiter.runWaits, List.getLast?_singleton, Option.some.injEq] at hlast
      subst hlast
      simpa using hlb
    | cons q qrest =>
      subst hrest
      simp only [RateLimiter.runWaits, List.getLast?_cons_cons] at hlast
      have htail := ih (RateLimiter.wait st now eps).1
        (fun r hr => hpos r (List.mem_cons_of_mem _ hr)) rN
        (by simp only [RateLimiter.runWaits]; exact hlast) (List.cons_ne_nil _ _)
      have hlt : (RateLimiter.wait st now eps).1.last_ts = (RateLimiter.wait st now eps).2 := rfl
      have hmi : (RateLimiter.wait st now eps).1.min_interval = st.min_interval := rfl
      rw [hlt, hmi] at htail
      simp only [List.length_cons] at htail ⊢
      push_cast at htail ⊢
      nlinarith [htail, hlb]

/-- C9: on a limiter built for `R` requests per second, `N` sequential
`wait()` calls release at least `(N-1)/R` seconds after the first call's
entry clock reading: the end-to-end duration of the `N` calls is at least
`(N-1)/R`. Clock readings are arbitrary; each call's `eps ≥ 0` absorbs sleep
overshoot and clock-read delay. -/
theorem c9_rate_limiter_floor (rps : ℚ) (hrps : 0 < rps) (st0 : LimiterState)
    (hinit : RateLimiter.init rps = Except.ok st0)
    (now eps : ℚ) (rest : List (ℚ × ℚ)) (heps : 0 ≤ eps)
    (hpos : ∀ p ∈ rest, 0 ≤ p.2) (rN : ℚ)
    (hlast : (RateLimiter.runWaits st0 ((now, eps) :: rest)).getLast? = some rN) :
    now + (rest.length : ℚ) * (1 / rps) ≤ rN := by
  have hst0 : st0 = ⟨1 / rps, 0⟩ := by
    simp only [RateLimiter.init] at hinit
    rw [if_neg (by linarith)] at hinit
    exact ((Except.ok.injEq _ _).mp hinit).symm
  subst hst0
  have hge := wait_release_ge_now ⟨1 / rps, 0⟩ now eps heps
  cases hrest : rest with
  | nil =>
    subst hrest
    simp only [RateLimiter.runWaits, List.getLast?_singleton, Option.some.injEq] at hlast
    subst hlast
    simpa using hge
  | cons q qrest =>
    subst hrest
    simp only [RateLimiter.runWaits, List.getLast?_cons_cons] at hlast
    have htail := runWaits_getLast_lb (q :: qrest) (RateLimiter.wait ⟨1 / rps, 0⟩ now eps).1
      hpos rN (by simp only [RateLimiter.runWaits]; exact hlast) (List.cons_ne_nil _ _)
    have hlt : (RateLimiter.wait (⟨1 / rps, 0⟩ : LimiterState) now eps).1.last_ts
        = (RateLimiter.wait (⟨1 / rps, 0⟩ : LimiterState) now eps).2 := rfl
    have hmi : (RateLimiter.wait (⟨1 / rps, 0⟩ : LimiterState) now eps).1.min_interval
        = (1 : ℚ) / rps := rfl
    rw [hlt, hmi] at htail
    simp only [List.length_cons] at htail ⊢
    push_cast at htail ⊢
    nlinarith [htail, hge]

/-- C9 witness: rate 2 requests/second, three calls entering at times 0, 1/2
and 1 with exact sleeps; the third release is at 3/2, and
`0 + 2 * (1/2) ≤ 3/2`. -/
theorem c9_rate_limiter_floor_witness :
    (0 : ℚ) + (([((1 : ℚ) / 2, (0 : ℚ)), ((1 : ℚ), (0 : ℚ))].length : ℚ)) * (1 / 2) ≤ 3 / 2 := by
  have h := c9_rate_limiter_floor 2 (by norm_num) ⟨1 / 2, 0⟩ (by norm_num [RateLimiter.init]) 0 0
    [((1 : ℚ) / 2, (0 : ℚ)), ((1 : ℚ), (0 : ℚ))] le_rfl
    (by intro p hp; fin_cases hp <;> norm_num) (3 / 2)
    (by norm_num [RateLimiter.runWaits, RateLimiter.wait, List.getLast?_cons_cons])
  simpa using h

end Moltbook
